import Mathlib

/-!
# Verification of the openapi-spec-validator repair core

Shallow embedding of the repository's core logic:

* `formatSpectralOutput` (src/index.js lines 18–43, src/unnamed/part_005 lines 19–44):
  splits parsed Spectral issues into `warnings`/`errors` lists, or returns the empty
  structure when `JSON.parse` throws.
* `formatDetailed` (src/unnamed/part_000 lines 20–85): the detailed normalizer with the
  fixed severity table, 1-based locations, sort by line, summary counts and status.
* the chunked AI-fix orchestrator `getAiFixes` (src/unnamed/part_005 lines 108–182):
  grouping issues by region key, extracting the region sub-document, calling the rewrite
  adapter per chunk of 5, and merging fixed chunks back via `Object.assign`.
* the HTTP handler decision logic after the lint run (src/index.js lines 172–194,
  src/unnamed/part_000 lines 110–135).

External effects are parameters: `JSON.parse` of the lint output is a
`String → Option (List RawIssue)` argument (`none` = the parse threw); `yaml.load` is a
`String → Option Yaml` argument (`none` = `js-yaml` threw); `yaml.dump` is a
`Yaml → String` argument; the rewrite call (`callAiWithChunk`) is an
`String → List FIssue → String` oracle, with its response-handling branch structure
modeled separately from an abstract `AiResponse`.

JS semantics that the embedding makes explicit:
* a JS object is a `List (String × Yaml)` of own enumerable properties in insertion
  order; `obj[k] = v` keeps the position of an existing key (`setProp`), and
  `Object.assign` copies source entries in order (`objAssign`);
* `"".split('.')` yields `[""]` (`splitDot`);
* `Array.prototype.splice(0, 5)` applied until empty is the decomposition into
  consecutive chunks of five (`chunksOf`).
-/

/-- A parsed YAML document: nested mappings (JS objects, insertion-ordered),
sequences and scalars.  Scalars carry their raw text; nothing in the verified
claims depends on scalar contents. -/
inductive Yaml where
  | scalar : String → Yaml
  | seq : List Yaml → Yaml
  | map : List (String × Yaml) → Yaml

/-- A raw Spectral issue as consumed by both normalizers: `code`, `message`,
`path` (sequence of keys, already stringified), numeric `severity`, and the
0-based `range.start` coordinates used by part_000. -/
structure RawIssue where
  code : String
  message : String
  path : List String
  severity : Int
  line : Nat
  character : Nat
deriving DecidableEq, Repr

/-- A formatted issue as produced by `formatSpectralOutput` in src/index.js /
src/unnamed/part_005: `{title, description, element}` where `element` is the
dot-joined path. -/
structure FIssue where
  title : String
  description : String
  element : String
deriving DecidableEq, Repr

/-- The `{warnings, errors}` structure produced by `formatSpectralOutput`. -/
structure Spectral where
  warnings : List FIssue
  errors : List FIssue
deriving DecidableEq, Repr

/-! ## String helpers (structural re-implementations of the JS operations,
so that concrete witnesses evaluate inside the kernel) -/

/-- Auxiliary splitter: JS `String.prototype.split('.')` on the character list. -/
def splitDotAux : List Char → List Char → List (List Char)
  | [], acc => [acc.reverse]
  | c :: cs, acc =>
    if c = '.' then acc.reverse :: splitDotAux cs []
    else splitDotAux cs (c :: acc)

/-- JS `s.split('.')`; in particular `"".split('.') = [""]`. -/
def splitDot (s : String) : List String :=
  (splitDotAux s.toList []).map (fun l => String.mk l)

/-- JS `a.join('.')` over already-stringified path segments
(`[].join('.') = ""`). -/
def joinDot : List String → String
  | [] => ""
  | [p] => p
  | p :: ps => p ++ "." ++ joinDot ps

/-- The whitespace stripped by `String.prototype.trim` (the code points that
occur in this repository's strings). -/
def isWsp (c : Char) : Bool :=
  c = ' ' || c = '\n' || c = '\t' || c = '\r'

/-- JS `s.trim()`. -/
def trimStr (s : String) : String :=
  String.mk (((s.toList.dropWhile isWsp).reverse.dropWhile isWsp).reverse)

/-- JS `s.startsWith(p)`, evaluated structurally on character lists. -/
def strStarts (p s : String) : Bool :=
  p.toList.isPrefixOf s.toList

/-! ## JS object operations -/

/-- First-match property lookup `obj[k]` on a JS object. -/
def lookupY : List (String × Yaml) → String → Option Yaml
  | [], _ => none
  | (k, v) :: rest, key => if k = key then some v else lookupY rest key

/-- JS property write `obj[k] = v`: replaces the value at an existing key in
place (keeping its position), or appends the key at the end. -/
def setProp : List (String × Yaml) → String → Yaml → List (String × Yaml)
  | [], k, v => [(k, v)]
  | (k', v') :: rest, k, v =>
    if k' = k then (k', v) :: rest else (k', v') :: setProp rest k v

/-- `Object.assign(target, source)`: copies every own enumerable property of
`source`, in order, onto `target`. -/
def objAssign (target source : List (String × Yaml)) : List (String × Yaml) :=
  source.foldl (fun t kv => setProp t kv.1 kv.2) target

/-- The own enumerable string-keyed properties a value contributes as an
`Object.assign` source: a mapping contributes its entries, an array its
index-keyed elements.  A scalar primitive contributes none (JS strings would
contribute their character positions; no claim depends on that corner, and the
orchestrator only reaches it when the rewrite service answers with
non-mapping YAML). -/
def yamlProps : Yaml → List (String × Yaml)
  | Yaml.map m => m
  | Yaml.seq l => (l.enum).map (fun p => (toString p.1, p.2))
  | Yaml.scalar _ => []

/-! ## Chunk Partitioner (src/unnamed/part_005 lines 115–152) -/

/-- The region key of an issue (part_005 lines 119–122): the first segment of
the dot-split `element`, except that under the `paths` collection the key is
`first segment + "." + second segment`. -/
def chunkKey (i : FIssue) : String :=
  match splitDot i.element with
  | p0 :: p1 :: _ => if p0 = "paths" then p0 ++ "." ++ p1 else p0
  | [p0] => p0
  | [] => ""

/-- One step of the `reduce` on part_005 lines 118–127: push `i` onto the
group of key `k`, creating the group at the end on first encounter
(JS object property insertion order). -/
def addToGroup (acc : List (String × List FIssue)) (k : String) (i : FIssue) :
    List (String × List FIssue) :=
  match acc with
  | [] => [(k, [i])]
  | (k', g) :: rest =>
    if k' = k then (k', g ++ [i]) :: rest else (k', g) :: addToGroup rest k i

/-- `errorsByChunkKey` (part_005 lines 118–127): group the combined issue list
by region key, preserving encounter order of keys and of issues within a key. -/
def groupIssues (issues : List FIssue) : List (String × List FIssue) :=
  issues.foldl (fun acc i => addToGroup acc (chunkKey i) i) []

/-- `CHUNK_SIZE` (part_005 line 134, src/index.js line 121). -/
def chunkSize : Nat := 5

/-- Fuel-indexed chunking; the fuel (an upper bound on the list length, so
that the recursion is structural and evaluates in the kernel) never runs out
because each step drops at least one element. -/
def chunksOfAux (n : Nat) : Nat → List α → List (List α)
  | _, [] => []
  | 0, l => [l]
  | fuel + 1, x :: xs => (x :: xs.take (n - 1)) :: chunksOfAux n fuel (xs.drop (n - 1))

/-- Decomposition into consecutive chunks of at most `n` elements: the effect
of repeatedly running `issuesForChunk.splice(0, n)` until empty
(part_005 lines 148–149). -/
def chunksOf (n : Nat) (l : List α) : List (List α) := chunksOfAux n l.length l

/-- The Partitioner as a pure function: the ordered `(region key, batch)`
pairs that the orchestrator loop of part_005 lines 132–152 processes — all
batches of a region consecutively, each of at most `chunkSize` issues. -/
def partitionIssues (issues : List FIssue) : List (String × List FIssue) :=
  (groupIssues issues).flatMap (fun g => (chunksOf chunkSize g.2).map (fun b => (g.1, b)))

/-! ## Region Extractor / Merger (src/unnamed/part_005 lines 136–167) -/

/-- `key.split('.')` as performed at part_005 line 138. -/
def keyParts (key : String) : List String := splitDot key

/-- Region extraction (part_005 lines 136–143): for a two-part key the
one-entry object `{ [parts[1]]: mainYamlObject.paths[parts[1]] }`, otherwise
`{ [key]: mainYamlObject[key] }`.  `none` models the runs the source aborts
with its critical-error message: a missing `paths` object raises a
`TypeError`, and an absent entry produces an `undefined` property value on
which the subsequent `yaml.dump` throws. -/
def extractRegion (doc : List (String × Yaml)) (key : String) :
    Option (List (String × Yaml)) :=
  match keyParts key with
  | _ :: p1 :: _ =>
    match lookupY doc "paths" with
    | some (Yaml.map pm) =>
      match lookupY pm p1 with
      | some v => some [(p1, v)]
      | none => none
    | _ => none
  | [p0] =>
    match lookupY doc p0 with
    | some v => some [(p0, v)]
    | none => none
  | [] => none

/-- Region merge (part_005 lines 160–165): for a two-part key
`Object.assign(mainYamlObject.paths, fixedChunkObject)`, otherwise
`Object.assign(mainYamlObject, fixedChunkObject)`.  `none` models the
`TypeError` of `Object.assign` on a missing/non-object `paths` (unreachable in
orchestrator runs, where extraction has already checked `paths`). -/
def mergeRegion (doc : List (String × Yaml)) (key : String)
    (fixed : List (String × Yaml)) : Option (List (String × Yaml)) :=
  match keyParts key with
  | _ :: _ :: _ =>
    match lookupY doc "paths" with
    | some (Yaml.map pm) => some (setProp doc "paths" (Yaml.map (objAssign pm fixed)))
    | _ => none
  | _ => some (objAssign doc fixed)

/-! ## Issue Normalizers -/

/-- `formatSpectralOutput` (src/index.js lines 18–43, identically
src/unnamed/part_005 lines 19–44): `none` is the `JSON.parse` throw, answered
by the empty structure; severity 1 goes to `warnings`, anything else to
`errors`. -/
def formatSpectralOutput (parsed : Option (List RawIssue)) : Spectral :=
  match parsed with
  | none => { warnings := [], errors := [] }
  | some results =>
    results.foldl
      (fun acc item =>
        let newItem : FIssue :=
          { title := item.code, description := item.message,
            element := joinDot item.path }
        if item.severity = 1 then { acc with warnings := acc.warnings ++ [newItem] }
        else { acc with errors := acc.errors ++ [newItem] })
      { warnings := [], errors := [] }

/-- The `severityMap` object of src/unnamed/part_000 lines 35–40. -/
def severityTable : List (Int × String) :=
  [(0, "error"), (1, "warn"), (2, "info"), (3, "hint")]

/-- `severityMap[item.severity] || 'unknown'` (part_000 line 43). -/
def severityLabel (s : Int) : String :=
  (severityTable.lookup s).getD "unknown"

/-- A normalized issue of the detailed normalizer (part_000 lines 51–60). -/
structure DetailedIssue where
  severity : String
  rule : String
  message : String
  path : String
  line : Nat
  character : Nat
deriving DecidableEq, Repr

/-- The per-item normalization pushed at part_000 lines 51–60. -/
def normalizeItem (item : RawIssue) : DetailedIssue :=
  { severity := severityLabel item.severity, rule := item.code,
    message := item.message, path := joinDot item.path,
    line := item.line + 1, character := item.character + 1 }

/-- The summary object of part_000 lines 21–28 / 65–70. -/
structure Summary where
  status : String
  errorCount : Nat
  warningCount : Nat
  totalIssues : Nat
deriving DecidableEq, Repr

/-- Result of the detailed normalizer: a report, or the catch branch of
part_000 lines 73–84, whose summary carries `status: 'error'` with the fixed
message and no issues. -/
inductive DetailedResult where
  | report (summary : Summary) (issues : List DetailedIssue)
  | malformed (message : String)
deriving DecidableEq, Repr

/-- Stable insertion by ascending `location.line`. -/
def insertByLine (x : DetailedIssue) : List DetailedIssue → List DetailedIssue
  | [] => [x]
  | y :: ys => if y.line ≤ x.line then y :: insertByLine x ys else x :: y :: ys

/-- `issues.sort((a, b) => a.location.line - b.location.line)`
(part_000 line 63). -/
def sortByLine : List DetailedIssue → List DetailedIssue
  | [] => []
  | x :: xs => insertByLine x (sortByLine xs)

/-- The detailed normalizer `formatSpectralOutput` of src/unnamed/part_000
lines 20–85: per-item severity labels via the fixed table, error/warning
counts, sort by line, and the summary status; `none` (a `JSON.parse` throw)
lands in the catch branch. -/
def formatDetailed (parsed : Option (List RawIssue)) : DetailedResult :=
  match parsed with
  | none => DetailedResult.malformed "Failed to parse Spectral output."
  | some results =>
    let r := results.foldl
      (fun (acc : Nat × Nat × List DetailedIssue) item =>
        let sev := severityLabel item.severity
        let ec := if sev = "error" then acc.1 + 1 else acc.1
        let wc := if sev ≠ "error" ∧ sev = "warn" then acc.2.1 + 1 else acc.2.1
        (ec, wc, acc.2.2 ++ [normalizeItem item]))
      (0, 0, [])
    let status :=
      if r.1 > 0 then "invalid"
      else if r.2.1 > 0 then "valid_with_warnings"
      else "valid"
    DetailedResult.report
      { status := status, errorCount := r.1, warningCount := r.2.1,
        totalIssues := results.length }
      (sortByLine r.2.2)

/-! ## Rewrite Adapter (src/unnamed/part_005 lines 47–105) -/

/-- What the external call inside `callAiWithChunk` produced, before the
adapter's own response handling: an HTTP non-success status with its body
(part_005 lines 84–88), a success response without message content
(lines 91–95), a success response with content text (lines 97–99), or a
thrown network exception (lines 101–104). -/
inductive AiResponse where
  | httpError (status : Nat) (body : String)
  | noText
  | text (t : String)
  | netException
deriving DecidableEq, Repr

/-- Split a character list at the first occurrence of `pat`, returning the
text before it and the text after it. -/
def breakOnAux (pat : List Char) : List Char → Option (List Char × List Char)
  | [] => if pat.isEmpty then some ([], []) else none
  | c :: cs =>
    if pat.isPrefixOf (c :: cs) then some ([], (c :: cs).drop pat.length)
    else
      match breakOnAux pat cs with
      | some (pre, post) => some (c :: pre, post)
      | none => none

/-- The regex `/```yaml\n([\s\S]*?)\n```/` of part_005 line 98: the content
between the leftmost ` ```yaml `-fence and the earliest closing fence after
it.  (If no closing fence follows the first opening fence, none follows any
later one either, so searching from the first opening fence is the leftmost
regex match.) -/
def extractYamlBlock (s : String) : Option String :=
  match breakOnAux "```yaml\n".toList s.toList with
  | none => none
  | some (_, rest) =>
    match breakOnAux "\n```".toList rest with
    | none => none
    | some (content, _) => some (String.mk content)

/-- Response handling of `callAiWithChunk` (part_005 lines 84–104): failure
sentinels for HTTP errors, missing content and exceptions; otherwise the
fenced YAML block if present, else the trimmed response text. -/
def callAiWithChunk (resp : AiResponse) : String :=
  match resp with
  | AiResponse.httpError status body =>
    "AI fix failed: API returned status " ++ toString status ++ ". Details: " ++ body
  | AiResponse.noText => "AI fix failed: Could not extract corrected YAML from AI response."
  | AiResponse.netException => "AI fix failed: An exception occurred."
  | AiResponse.text t =>
    match extractYamlBlock t with
    | some y => y
    | none => trimStr t

/-! ## Repair Orchestrator (src/unnamed/part_005 lines 108–182)

The orchestrator is embedded with an explicit call trace: every function below
returns, next to its result, the list of `(yamlChunkString, errorChunk)`
arguments passed to the rewrite adapter, so that "no further batches are
attempted" is a provable statement. -/

/-- `fixedChunkString.startsWith('AI fix failed:')` (part_005 line 154). -/
def aiFailed (s : String) : Bool := strStarts "AI fix failed:" s

/-- The message of the outer catch (part_005 lines 178–181). -/
def criticalMsg : String := "AI fix failed: A critical error occurred while processing the YAML."

/-- The message of the inner catch (part_005 lines 168–171). -/
def parseFailMsg : String := "AI fix failed: Could not parse YAML response from AI."

/-- The `while (issuesForChunk.length > 0)` loop of part_005 lines 148–172 for
one region, with the pending issues already decomposed into their
`splice(0, CHUNK_SIZE)` chunks: dump the current chunk object, call the
adapter, abort on a failure sentinel, otherwise parse the response, merge it
into the live document and continue with the parsed object as the next chunk
object.  A response that `yaml.load` cannot parse (and the unreachable
`Object.assign` throw) lands in the inner catch. -/
def runChunks (adapter : String → List FIssue → String) (load : String → Option Yaml)
    (dump : Yaml → String) (key : String) :
    List (String × Yaml) → Yaml → List (List FIssue) →
      Except String (List (String × Yaml)) × List (String × List FIssue)
  | doc, _, [] => (Except.ok doc, [])
  | doc, chunkObj, c :: cs =>
    let s := dump chunkObj
    let fixed := adapter s c
    if aiFailed fixed then (Except.error fixed, [(s, c)])
    else
      match load fixed with
      | none => (Except.error parseFailMsg, [(s, c)])
      | some fobj =>
        match mergeRegion doc key (yamlProps fobj) with
        | none => (Except.error parseFailMsg, [(s, c)])
        | some doc' =>
          let r := runChunks adapter load dump key doc' fobj cs
          (r.1, (s, c) :: r.2)

/-- The `for (const key in errorsByChunkKey)` loop of part_005 lines 132–173:
extract each region's chunk object and run its chunks on the live document; a
failed extraction is the outer-catch abort (`TypeError` on a missing `paths`,
or `yaml.dump` throwing on the `undefined` value of an absent key), reached
before any adapter call for that region. -/
def runGroups (adapter : String → List FIssue → String) (load : String → Option Yaml)
    (dump : Yaml → String) :
    List (String × Yaml) → List (String × List FIssue) →
      Except String (List (String × Yaml)) × List (String × List FIssue)
  | doc, [] => (Except.ok doc, [])
  | doc, (key, gissues) :: rest =>
    match extractRegion doc key with
    | none => (Except.error criticalMsg, [])
    | some entries =>
      match runChunks adapter load dump key doc (Yaml.map entries) (chunksOf chunkSize gissues) with
      | (Except.ok doc', tr) =>
        let r := runGroups adapter load dump doc' rest
        (r.1, tr ++ r.2)
      | (Except.error e, tr) => (Except.error e, tr)

/-- `getAiFixes` (part_005 lines 108–182), with the adapter-call trace.
`hasKey` is the `GROQ_API_KEY` check; `load`/`dump` are `yaml.load` /
`yaml.dump` (`load _ = none` models a throw).  A document that loads to a
non-mapping value cannot satisfy any region lookup and is folded into the
outer-catch abort; when there are no issue groups the loop body never runs and
the document is re-serialized unchanged. -/
def getAiFixesT (hasKey : Bool) (adapter : String → List FIssue → String)
    (load : String → Option Yaml) (dump : Yaml → String)
    (initialYamlContent : String) (spectralIssues : Spectral) :
    String × List (String × List FIssue) :=
  if hasKey = false then ("AI fix skipped: GROQ_API_KEY not configured.", [])
  else
    match load initialYamlContent with
    | none => (criticalMsg, [])
    | some y =>
      match groupIssues (spectralIssues.errors ++ spectralIssues.warnings) with
      | [] => (dump y, [])
      | g :: gs =>
        match y with
        | Yaml.map doc =>
          match runGroups adapter load dump doc (g :: gs) with
          | (Except.ok finalDoc, tr) => (dump (Yaml.map finalDoc), tr)
          | (Except.error e, tr) => (e, tr)
        | _ => (criticalMsg, [])

/-- `getAiFixes`' returned string alone. -/
def getAiFixes (hasKey : Bool) (adapter : String → List FIssue → String)
    (load : String → Option Yaml) (dump : Yaml → String)
    (initialYamlContent : String) (spectralIssues : Spectral) : String :=
  (getAiFixesT hasKey adapter load dump initialYamlContent spectralIssues).1

/-! ## HTTP handler decision logic -/

/-- The `fixed-yaml-file` value of the no-issue short-circuit
(src/index.js line 179, part_005 line 217). -/
def noIssuesMessage : String := "No issues found. Original YAML is valid."

/-- The decision logic of the `/yaml/validate` handler after the lint run
(src/index.js lines 172–194, identically part_005 lines 210–232): default the
empty stdout to `'[]'`, format it, short-circuit to the no-issues response
when both lists are empty, otherwise run `getAiFixes` and attach its result as
`fixed-yaml-file`.  The value is the response payload
`(spectralJsonResponse, fixed-yaml-file)` together with the adapter-call
trace. -/
def handleValidate (hasKey : Bool) (adapter : String → List FIssue → String)
    (load : String → Option Yaml) (dump : Yaml → String)
    (parseJson : String → Option (List RawIssue)) (stdout : String)
    (originalYamlContent : String) :
    (Spectral × String) × List (String × List FIssue) :=
  let spectralOutput := if stdout = "" then "[]" else stdout
  let resp := formatSpectralOutput (parseJson spectralOutput)
  if resp.errors.length = 0 ∧ resp.warnings.length = 0 then
    ((resp, noIssuesMessage), [])
  else
    let r := getAiFixesT hasKey adapter load dump originalYamlContent resp
    ((resp, r.1), r.2)

/-- The HTTP outcomes of the part_000 handler. -/
inductive DetailedHttp where
  | okValid
  | serverError (message : String)
  | unprocessable (summary : Summary) (issues : List DetailedIssue)
  | okReport (summary : Summary) (issues : List DetailedIssue)
deriving DecidableEq, Repr

/-- The decision logic of the part_000 `/yaml/validate` handler (lines
110–135): trim the stdout, answer `200 valid` on empty/`[]` output, otherwise
format; a summary status `'error'` (the `malformed` result) becomes the 500
response, `'invalid'` the 422 response, anything else the 200 report. -/
def handleDetailed (parseJson : String → Option (List RawIssue)) (stdout : String) :
    DetailedHttp :=
  let spectralOutput := if stdout = "" then "" else trimStr stdout
  if spectralOutput = "" ∨ spectralOutput = "[]" then DetailedHttp.okValid
  else
    match formatDetailed (parseJson spectralOutput) with
    | DetailedResult.malformed m => DetailedHttp.serverError m
    | DetailedResult.report summary issues =>
      if summary.status = "invalid" then DetailedHttp.unprocessable summary issues
      else DetailedHttp.okReport summary issues

/-! ## Lemmas about the JS object operations -/

/-- The key list of a JS object. -/
def keysOf (m : List (String × Yaml)) : List String := m.map Prod.fst

theorem keysOf_nil : keysOf [] = [] := rfl

theorem keysOf_cons (k : String) (v : Yaml) (rest : List (String × Yaml)) :
    keysOf ((k, v) :: rest) = k :: keysOf rest := rfl

theorem lookupY_setProp_self (m : List (String × Yaml)) (k : String) (v : Yaml) :
    lookupY (setProp m k v) k = some v := by
  induction m with
  | nil => simp [setProp, lookupY]
  | cons p rest ih =>
    obtain ⟨k', v'⟩ := p
    by_cases h : k' = k <;> simp [setProp, lookupY, h, ih]

theorem lookupY_setProp_ne (m : List (String × Yaml)) (k k' : String) (v : Yaml)
    (h : k' ≠ k) : lookupY (setProp m k v) k' = lookupY m k' := by
  induction m with
  | nil =>
    simp [setProp, lookupY]
    exact Ne.symm h
  | cons p rest ih =>
    obtain ⟨k₀, v₀⟩ := p
    by_cases h₀ : k₀ = k
    · subst h₀
      simp [setProp, lookupY, Ne.symm h]
    · simp [setProp, h₀, lookupY, ih]

theorem setProp_lookup_eq (m : List (String × Yaml)) (k : String) (v : Yaml)
    (h : lookupY m k = some v) : setProp m k v = m := by
  induction m with
  | nil => simp [lookupY] at h
  | cons p rest ih =>
    obtain ⟨k₀, v₀⟩ := p
    by_cases h₀ : k₀ = k
    · subst h₀
      simp [lookupY] at h
      simp [setProp, h]
    · simp [lookupY, h₀] at h
      simp [setProp, h₀, ih h]

theorem keysOf_setProp (m : List (String × Yaml)) (k : String) (v : Yaml) :
    keysOf (setProp m k v) = if k ∈ keysOf m then keysOf m else keysOf m ++ [k] := by
  induction m with
  | nil => simp [setProp, keysOf]
  | cons p rest ih =>
    obtain ⟨k₀, v₀⟩ := p
    by_cases h₀ : k₀ = k
    · subst h₀
      simp [setProp, keysOf]
    · have hne : k ≠ k₀ := fun hh => h₀ hh.symm
      have hstep : keysOf (setProp ((k₀, v₀) :: rest) k v) = k₀ :: keysOf (setProp rest k v) := by
        simp [setProp, h₀, keysOf]
      rw [hstep, ih, keysOf_cons]
      by_cases hm : k ∈ keysOf rest <;> simp [List.mem_cons, hne, hm]

theorem objAssign_of_lookups (t : List (String × Yaml)) (s : List (String × Yaml))
    (h : ∀ p ∈ s, lookupY t p.1 = some p.2) : objAssign t s = t := by
  induction s generalizing t with
  | nil => rfl
  | cons p rest ih =>
    obtain ⟨k, v⟩ := p
    have h₀ := h (k, v) (by simp)
    have hset : setProp t k v = t := setProp_lookup_eq t k v h₀
    show objAssign (setProp t k v) rest = t
    rw [hset]
    exact ih t (fun q hq => h q (by simp [hq]))

theorem lookupY_objAssign_not_mem (m s : List (String × Yaml)) (k : String)
    (h : k ∉ keysOf s) : lookupY (objAssign m s) k = lookupY m k := by
  induction s generalizing m with
  | nil => rfl
  | cons p rest ih =>
    obtain ⟨k₀, v₀⟩ := p
    rw [keysOf_cons, List.mem_cons] at h
    push_neg at h
    show lookupY (objAssign (setProp m k₀ v₀) rest) k = lookupY m k
    rw [ih (setProp m k₀ v₀) h.2]
    exact lookupY_setProp_ne m k₀ k v₀ h.1

theorem lookupY_objAssign_mem (m s : List (String × Yaml)) (k : String) (v : Yaml)
    (hnd : (keysOf s).Nodup) (h : (k, v) ∈ s) :
    lookupY (objAssign m s) k = some v := by
  induction s generalizing m with
  | nil => simp at h
  | cons p rest ih =>
    obtain ⟨k₀, v₀⟩ := p
    rw [keysOf_cons, List.nodup_cons] at hnd
    rcases List.mem_cons.mp h with h₀ | h₀
    · injection h₀ with hk hv
      subst hk; subst hv
      show lookupY (objAssign (setProp m k v) rest) k = some v
      rw [lookupY_objAssign_not_mem _ _ _ hnd.1]
      exact lookupY_setProp_self m k v
    · exact ih (setProp m k₀ v₀) hnd.2 h₀

theorem keysOf_objAssign (m s : List (String × Yaml)) (hnd : (keysOf s).Nodup) :
    keysOf (objAssign m s) = keysOf m ++ (keysOf s).filter (fun k => k ∉ keysOf m) := by
  induction s generalizing m with
  | nil => simp [objAssign, keysOf]
  | cons p rest ih =>
    obtain ⟨k₀, v₀⟩ := p
    rw [keysOf_cons, List.nodup_cons] at hnd
    show keysOf (objAssign (setProp m k₀ v₀) rest) =
      keysOf m ++ (keysOf ((k₀, v₀) :: rest)).filter (fun k => k ∉ keysOf m)
    rw [ih (setProp m k₀ v₀) hnd.2, keysOf_setProp, keysOf_cons, List.filter_cons]
    by_cases hmem : k₀ ∈ keysOf m
    · rw [if_pos hmem]
      have hd : ¬ (decide (k₀ ∉ keysOf m) = true) := by simpa using hmem
      rw [if_neg hd]
    · rw [if_neg hmem]
      have hd : decide (k₀ ∉ keysOf m) = true := by simpa using hmem
      rw [if_pos hd]
      have hflt : (keysOf rest).filter (fun k => k ∉ keysOf m ++ [k₀]) =
          (keysOf rest).filter (fun k => k ∉ keysOf m) := by
        apply List.filter_congr
        intro x hx
        have hxk : x ≠ k₀ := fun hh => hnd.1 (hh ▸ hx)
        simp [hxk]
      rw [hflt]
      simp

theorem objAssign_idem (m s : List (String × Yaml)) (hnd : (keysOf s).Nodup) :
    objAssign (objAssign m s) s = objAssign m s := by
  apply objAssign_of_lookups
  intro p hp
  exact lookupY_objAssign_mem m s p.1 p.2 hnd hp

/-! ## Lemmas about chunking and grouping -/

theorem chunksOfAux_flatten (n : Nat) (fuel : Nat) (l : List α) (h : l.length ≤ fuel) :
    (chunksOfAux n fuel l).flatten = l := by
  induction fuel generalizing l with
  | zero =>
    have : l = [] := List.length_eq_zero.mp (Nat.le_zero.mp h)
    subst this
    rfl
  | succ fuel ih =>
    match l with
    | [] => rfl
    | x :: xs =>
      simp only [chunksOfAux, List.flatten_cons]
      rw [ih (xs.drop (n - 1))
        (by simp only [List.length_cons] at h; simp only [List.length_drop]; omega)]
      simp [List.take_append_drop]

theorem chunksOf_flatten (n : Nat) (l : List α) : (chunksOf n l).flatten = l :=
  chunksOfAux_flatten n l.length l (Nat.le_refl _)

theorem chunksOfAux_mem_length (n : Nat) (hn : 0 < n) (fuel : Nat) (l : List α)
    (h : l.length ≤ fuel) : ∀ b ∈ chunksOfAux n fuel l, b.length ≤ n := by
  induction fuel generalizing l with
  | zero =>
    have : l = [] := List.length_eq_zero.mp (Nat.le_zero.mp h)
    subst this
    intro b hb
    simp [chunksOfAux] at hb
  | succ fuel ih =>
    match l with
    | [] => intro b hb; simp [chunksOfAux] at hb
    | x :: xs =>
      intro b hb
      simp only [chunksOfAux, List.mem_cons] at hb
      rcases hb with hb | hb
      · subst hb
        simp [List.length_take]
        omega
      · exact ih (xs.drop (n - 1))
          (by simp only [List.length_cons] at h; simp only [List.length_drop]; omega) b hb

theorem chunksOf_mem_length (n : Nat) (hn : 0 < n) (l : List α) :
    ∀ b ∈ chunksOf n l, b.length ≤ n :=
  chunksOfAux_mem_length n hn l.length l (Nat.le_refl _)

theorem chunksOf_mem_subset (n : Nat) (l : List α) (b : List α) (hb : b ∈ chunksOf n l) :
    ∀ x ∈ b, x ∈ l := by
  intro x hx
  have : x ∈ (chunksOf n l).flatten := List.mem_flatten.mpr ⟨b, hb, hx⟩
  rwa [chunksOf_flatten] at this

/-- The issues carried by a group list, in order. -/
def groupElems (acc : List (String × List FIssue)) : List FIssue :=
  (acc.map Prod.snd).flatten

theorem groupElems_addToGroup (acc : List (String × List FIssue)) (k : String) (i : FIssue) :
    List.Perm (groupElems (addToGroup acc k i)) (groupElems acc ++ [i]) := by
  induction acc with
  | nil => simp [addToGroup, groupElems]
  | cons p rest ih =>
    obtain ⟨k', g⟩ := p
    by_cases h : k' = k
    · simp only [addToGroup, if_pos h, groupElems, List.map_cons, List.flatten_cons]
      have h1 : List.Perm (g ++ ([i] ++ (rest.map Prod.snd).flatten))
          (g ++ ((rest.map Prod.snd).flatten ++ [i])) :=
        List.Perm.append_left g List.perm_append_comm
      simpa [List.append_assoc] using h1
    · simp only [addToGroup, if_neg h, groupElems, List.map_cons, List.flatten_cons]
      have h1 := List.Perm.append_left g ih
      simpa [groupElems, List.append_assoc] using h1

theorem groupElems_foldl (issues : List FIssue) (acc : List (String × List FIssue)) :
    List.Perm
      (groupElems (issues.foldl (fun a i => addToGroup a (chunkKey i) i) acc))
      (groupElems acc ++ issues) := by
  induction issues generalizing acc with
  | nil => simp
  | cons i is ih =>
    simp only [List.foldl_cons]
    have h1 := ih (addToGroup acc (chunkKey i) i)
    have h2 := List.Perm.append_right is (groupElems_addToGroup acc (chunkKey i) i)
    have h3 := h1.trans h2
    simpa [List.append_assoc] using h3

theorem groupIssues_perm (issues : List FIssue) :
    List.Perm (groupElems (groupIssues issues)) issues := by
  have h := groupElems_foldl issues []
  simpa [groupElems] using h

theorem addToGroup_keys (acc : List (String × List FIssue)) (k : String) (i : FIssue)
    (hk : chunkKey i = k)
    (hacc : ∀ p ∈ acc, ∀ j ∈ p.2, chunkKey j = p.1) :
    ∀ p ∈ addToGroup acc k i, ∀ j ∈ p.2, chunkKey j = p.1 := by
  induction acc with
  | nil =>
    intro p hp j hj
    simp [addToGroup] at hp
    subst hp
    simp at hj
    subst hj
    exact hk
  | cons q rest ih =>
    obtain ⟨k', g⟩ := q
    by_cases h : k' = k
    · intro p hp j hj
      simp only [addToGroup, if_pos h, List.mem_cons] at hp
      rcases hp with hp | hp
      · subst hp
        simp only [List.mem_append, List.mem_singleton] at hj
        rcases hj with hj | hj
        · exact hacc (k', g) (by simp) j hj
        · subst hj; rw [hk, h]
      · exact hacc p (by simp [hp]) j hj
    · intro p hp j hj
      simp only [addToGroup, if_neg h, List.mem_cons] at hp
      rcases hp with hp | hp
      · subst hp
        exact hacc (k', g) (by simp) j hj
      · exact ih (fun q hq => hacc q (by simp [hq])) p hp j hj

theorem groupIssues_keys (issues : List FIssue) :
    ∀ p ∈ groupIssues issues, ∀ j ∈ p.2, chunkKey j = p.1 := by
  have main : ∀ (is : List FIssue) (acc : List (String × List FIssue)),
      (∀ p ∈ acc, ∀ j ∈ p.2, chunkKey j = p.1) →
      ∀ p ∈ is.foldl (fun a i => addToGroup a (chunkKey i) i) acc, ∀ j ∈ p.2, chunkKey j = p.1 := by
    intro is
    induction is with
    | nil => intro acc hacc; simpa using hacc
    | cons i tl ih =>
      intro acc hacc
      simp only [List.foldl_cons]
      exact ih _ (addToGroup_keys acc (chunkKey i) i rfl hacc)
  exact main issues [] (by simp)

theorem partition_batches_flatten (issues : List FIssue) :
    (partitionIssues issues).flatMap Prod.snd = groupElems (groupIssues issues) := by
  unfold partitionIssues
  have inner : ∀ (k : String) (l : List FIssue),
      ((chunksOf chunkSize l).map (fun b => (k, b))).flatMap Prod.snd = l := by
    intro k l
    have : ∀ C : List (List FIssue), (C.map (fun b => (k, b))).flatMap Prod.snd = C.flatten := by
      intro C
      induction C with
      | nil => rfl
      | cons c cs ih => simp [List.flatMap_cons, ih]
    rw [this, chunksOf_flatten]
  induction groupIssues issues with
  | nil => rfl
  | cons g gs ih =>
    simp only [List.flatMap_cons, groupElems, List.map_cons, List.flatten_cons]
    rw [List.flatMap_append]
    rw [inner g.1 g.2, ih]
    rfl

theorem partitionIssues_perm (issues : List FIssue) :
    List.Perm ((partitionIssues issues).flatMap Prod.snd) issues := by
  rw [partition_batches_flatten]
  exact groupIssues_perm issues

theorem partitionIssues_batch_le (issues : List FIssue) :
    ∀ p ∈ partitionIssues issues, p.2.length ≤ chunkSize := by
  intro p hp
  unfold partitionIssues at hp
  rw [List.mem_flatMap] at hp
  obtain ⟨g, hg, hmem⟩ := hp
  rw [List.mem_map] at hmem
  obtain ⟨b, hb, rfl⟩ := hmem
  exact chunksOf_mem_length chunkSize (by simp [chunkSize]) g.2 b hb

theorem partitionIssues_keys (issues : List FIssue) :
    ∀ p ∈ partitionIssues issues, ∀ i ∈ p.2, chunkKey i = p.1 := by
  intro p hp i hi
  unfold partitionIssues at hp
  rw [List.mem_flatMap] at hp
  obtain ⟨g, hg, hmem⟩ := hp
  rw [List.mem_map] at hmem
  obtain ⟨b, hb, rfl⟩ := hmem
  exact groupIssues_keys issues g hg i (chunksOf_mem_subset chunkSize g.2 b hb i hi)

/-! ## Lemmas about the detailed normalizer -/

theorem insertByLine_perm (x : DetailedIssue) (l : List DetailedIssue) :
    List.Perm (insertByLine x l) (x :: l) := by
  induction l with
  | nil => simp [insertByLine]
  | cons y ys ih =>
    by_cases h : y.line ≤ x.line
    · simp only [insertByLine, if_pos h]
      exact (ih.cons y).trans (List.Perm.swap x y ys)
    · simp [insertByLine, if_neg h]

theorem sortByLine_perm (l : List DetailedIssue) :
    List.Perm (sortByLine l) l := by
  induction l with
  | nil => simp [sortByLine]
  | cons x xs ih =>
    exact (insertByLine_perm x (sortByLine xs)).trans (ih.cons x)

theorem formatDetailed_foldl_issues (results : List RawIssue)
    (acc : Nat × Nat × List DetailedIssue) :
    (results.foldl
      (fun (acc : Nat × Nat × List DetailedIssue) item =>
        let sev := severityLabel item.severity
        let ec := if sev = "error" then acc.1 + 1 else acc.1
        let wc := if sev ≠ "error" ∧ sev = "warn" then acc.2.1 + 1 else acc.2.1
        (ec, wc, acc.2.2 ++ [normalizeItem item]))
      acc).2.2 = acc.2.2 ++ results.map normalizeItem := by
  induction results generalizing acc with
  | nil => simp
  | cons r rs ih =>
    simp only [List.foldl_cons, List.map_cons]
    rw [ih]
    simp [List.append_assoc]

/-! ## Orchestrator abort invariants -/

theorem runChunks_ok_calls (adapter : String → List FIssue → String)
    (load : String → Option Yaml) (dump : Yaml → String) (key : String)
    (cs : List (List FIssue)) :
    ∀ (doc : List (String × Yaml)) (co : Yaml) (d : List (String × Yaml))
      (tr : List (String × List FIssue)),
    runChunks adapter load dump key doc co cs = (Except.ok d, tr) →
    ∀ c ∈ tr, aiFailed (adapter c.1 c.2) = false := by
  induction cs with
  | nil =>
    intro doc co d tr h c hc
    simp only [runChunks, Prod.mk.injEq] at h
    rw [← h.2] at hc
    simp at hc
  | cons c0 cs' ih =>
    intro doc co d tr h c hc
    simp only [runChunks] at h
    split at h
    · simp at h
    · rename_i hf
      split at h
      · simp at h
      · rename_i fobj hload
        split at h
        · simp at h
        · rename_i doc' hmerge
          simp only [Prod.mk.injEq] at h
          rw [← h.2] at hc
          rcases List.mem_cons.mp hc with hc | hc
          · subst hc
            exact Bool.not_eq_true _ ▸ hf
          · have heq : runChunks adapter load dump key doc' fobj cs' =
                (Except.ok d,
                  (runChunks adapter load dump key doc' fobj cs').2) := by
              rw [← h.1]
            exact ih doc' fobj d _ heq c hc

theorem runChunks_err_calls (adapter : String → List FIssue → String)
    (load : String → Option Yaml) (dump : Yaml → String) (key : String)
    (cs : List (List FIssue)) :
    ∀ (doc : List (String × Yaml)) (co : Yaml) (e : String)
      (tr : List (String × List FIssue)),
    runChunks adapter load dump key doc co cs = (Except.error e, tr) →
    ∃ t x, tr = t ++ [x] ∧ (∀ y ∈ t, aiFailed (adapter y.1 y.2) = false) ∧
      (aiFailed (adapter x.1 x.2) = true → e = adapter x.1 x.2) ∧
      (aiFailed (adapter x.1 x.2) = false → e = parseFailMsg) := by
  induction cs with
  | nil =>
    intro doc co e tr h
    simp only [runChunks, Prod.mk.injEq] at h
    exact absurd h.1 (by simp)
  | cons c0 cs' ih =>
    intro doc co e tr h
    simp only [runChunks] at h
    split at h
    · rename_i hf
      simp only [Prod.mk.injEq, Except.error.injEq] at h
      refine ⟨[], (dump co, c0), by rw [← h.2]; rfl, by simp, fun _ => h.1.symm, fun hc => ?_⟩
      rw [hf] at hc
      simp at hc
    · rename_i hf
      split at h
      · simp only [Prod.mk.injEq, Except.error.injEq] at h
        refine ⟨[], (dump co, c0), by rw [← h.2]; rfl, by simp, fun hc => ?_, fun _ => h.1.symm⟩
        exact absurd hc hf
      · rename_i fobj hload
        split at h
        · simp only [Prod.mk.injEq, Except.error.injEq] at h
          refine ⟨[], (dump co, c0), by rw [← h.2]; rfl, by simp, fun hc => ?_, fun _ => h.1.symm⟩
          exact absurd hc hf
        · rename_i doc' hmerge
          simp only [Prod.mk.injEq] at h
          have heq : runChunks adapter load dump key doc' fobj cs' =
              (Except.error e, (runChunks adapter load dump key doc' fobj cs').2) := by
            rw [← h.1]
          obtain ⟨t', x', htr, hok, hfail, hnof⟩ := ih doc' fobj e _ heq
          refine ⟨(dump co, c0) :: t', x', ?_, ?_, hfail, hnof⟩
          · rw [← h.2, htr]
            rfl
          · intro y hy
            rcases List.mem_cons.mp hy with hy | hy
            · subst hy
              exact Bool.not_eq_true _ ▸ hf
            · exact hok y hy

theorem runGroups_ok_calls (adapter : String → List FIssue → String)
    (load : String → Option Yaml) (dump : Yaml → String)
    (gs : List (String × List FIssue)) :
    ∀ (doc : List (String × Yaml)) (d : List (String × Yaml))
      (tr : List (String × List FIssue)),
    runGroups adapter load dump doc gs = (Except.ok d, tr) →
    ∀ c ∈ tr, aiFailed (adapter c.1 c.2) = false := by
  induction gs with
  | nil =>
    intro doc d tr h c hc
    simp only [runGroups, Prod.mk.injEq] at h
    rw [← h.2] at hc
    simp at hc
  | cons g gs' ih =>
    intro doc d tr h c hc
    obtain ⟨key, gissues⟩ := g
    simp only [runGroups] at h
    split at h
    · simp at h
    · rename_i entries hext
      split at h
      · rename_i doc' trg hrun
        simp only [Prod.mk.injEq] at h
        rw [← h.2] at hc
        rcases List.mem_append.mp hc with hc | hc
        · exact runChunks_ok_calls adapter load dump key _ doc (Yaml.map entries) doc' trg hrun c hc
        · have heq : runGroups adapter load dump doc' gs' =
              (Except.ok d, (runGroups adapter load dump doc' gs').2) := by
            rw [← h.1]
          exact ih doc' d _ heq c hc
      · simp at h

theorem runGroups_err_calls (adapter : String → List FIssue → String)
    (load : String → Option Yaml) (dump : Yaml → String)
    (gs : List (String × List FIssue)) :
    ∀ (doc : List (String × Yaml)) (e : String) (tr : List (String × List FIssue)),
    runGroups adapter load dump doc gs = (Except.error e, tr) →
    (tr = [] ∧ e = criticalMsg) ∨
    ∃ t x, tr = t ++ [x] ∧ (∀ y ∈ t, aiFailed (adapter y.1 y.2) = false) ∧
      (aiFailed (adapter x.1 x.2) = true → e = adapter x.1 x.2) ∧
      (aiFailed (adapter x.1 x.2) = false → e = parseFailMsg ∨ e = criticalMsg) := by
  induction gs with
  | nil =>
    intro doc e tr h
    simp only [runGroups, Prod.mk.injEq] at h
    exact absurd h.1 (by simp)
  | cons g gs' ih =>
    intro doc e tr h
    obtain ⟨key, gissues⟩ := g
    simp only [runGroups] at h
    split at h
    · simp only [Prod.mk.injEq, Except.error.injEq] at h
      exact Or.inl ⟨h.2.symm, h.1.symm⟩
    · rename_i entries hext
      split at h
      · rename_i doc' trg hrun
        simp only [Prod.mk.injEq] at h
        have heq : runGroups adapter load dump doc' gs' =
            (Except.error e, (runGroups adapter load dump doc' gs').2) := by
          rw [← h.1]
        have htrg : ∀ c ∈ trg, aiFailed (adapter c.1 c.2) = false :=
          runChunks_ok_calls adapter load dump key _ doc (Yaml.map entries) doc' trg hrun
        rcases ih doc' e _ heq with ⟨hnil, hcrit⟩ | ⟨t', x', htr', hok', hfail', hnof'⟩
        · rw [hnil] at h
          rcases List.eq_nil_or_concat trg with htrg0 | ⟨t0, x0, htrg0⟩
          · refine Or.inl ⟨?_, hcrit⟩
            rw [← h.2, htrg0]
            rfl
          · rw [List.concat_eq_append] at htrg0
            refine Or.inr ⟨t0, x0, ?_, ?_, ?_, fun _ => Or.inr hcrit⟩
            · rw [← h.2, htrg0]
              simp
            · intro y hy
              exact htrg y (htrg0 ▸ List.mem_append_left _ hy)
            · intro hfl
              have := htrg x0 (htrg0 ▸ List.mem_append_right _ (by simp))
              rw [this] at hfl
              simp at hfl
        · refine Or.inr ⟨trg ++ t', x', ?_, ?_, hfail', hnof'⟩
          · rw [← h.2, htr']
            simp [List.append_assoc]
          · intro y hy
            rcases List.mem_append.mp hy with hy | hy
            · exact htrg y hy
            · exact hok' y hy
      · rename_i trg hrun
        simp only [Prod.mk.injEq, Except.error.injEq] at h
        obtain ⟨t', x', htr', hok', hfail', hnof'⟩ :=
          runChunks_err_calls adapter load dump key _ doc (Yaml.map entries) _ trg hrun
        refine Or.inr ⟨t', x', ?_, hok', ?_, ?_⟩
        · rw [← h.2, htr']
        · intro hfl
          rw [← h.1]
          exact hfail' hfl
        · intro hfl
          rw [← h.1]
          exact Or.inl (hnof' hfl)

/-- C1 (amended): when the rewrite adapter answers a batch with a failure
string (HTTP non-success, missing content, or exception — all of which the
adapter turns into an `"AI fix failed:"`-prefixed string), the orchestrator
aborts the entire run at that batch: the adapter-call trace of any run has no
failing response before its last call, and when the last response is a failing
one the run's result is that failure string verbatim.  (Unparsable responses
and unresolvable regions abort likewise with a fixed parse/critical message;
the returned result does not identify which region/batch failed — see the
counterexample.) -/
theorem getAiFixesT_abort (hasKey : Bool) (adapter : String → List FIssue → String)
    (load : String → Option Yaml) (dump : Yaml → String)
    (y : String) (issues : Spectral) (t : List (String × List FIssue))
    (x : String × List FIssue)
    (htr : (getAiFixesT hasKey adapter load dump y issues).2 = t ++ [x]) :
    (∀ c ∈ t, aiFailed (adapter c.1 c.2) = false) ∧
    (aiFailed (adapter x.1 x.2) = true →
      (getAiFixesT hasKey adapter load dump y issues).1 = adapter x.1 x.2) := by
  rcases hP : getAiFixesT hasKey adapter load dump y issues with ⟨res, tr⟩
  rw [hP] at htr
  simp only at htr ⊢
  unfold getAiFixesT at hP
  split at hP
  · obtain ⟨h1, h2⟩ := Prod.mk.injEq .. ▸ hP
    rw [← h2] at htr
    exact absurd htr.symm (List.append_ne_nil_of_right_ne_nil t (by simp))
  · split at hP
    · obtain ⟨h1, h2⟩ := Prod.mk.injEq .. ▸ hP
      rw [← h2] at htr
      exact absurd htr.symm (List.append_ne_nil_of_right_ne_nil t (by simp))
    · rename_i yv hload
      split at hP
      · obtain ⟨h1, h2⟩ := Prod.mk.injEq .. ▸ hP
        rw [← h2] at htr
        exact absurd htr.symm (List.append_ne_nil_of_right_ne_nil t (by simp))
      · rename_i g gs hgroups
        split at hP
        · rename_i doc
          split at hP
          · rename_i finalDoc trg hrun
            obtain ⟨h1, h2⟩ := Prod.mk.injEq .. ▸ hP
            subst h2
            have hall := runGroups_ok_calls adapter load dump (g :: gs) doc finalDoc trg hrun
            constructor
            · intro c hc
              exact hall c (htr ▸ List.mem_append_left _ hc)
            · intro hfl
              have hx := hall x (htr ▸ List.mem_append_right _ (by simp))
              rw [hx] at hfl
              simp at hfl
          · rename_i e trg hrun
            obtain ⟨h1, h2⟩ := Prod.mk.injEq .. ▸ hP
            subst h1
            subst h2
            rcases runGroups_err_calls adapter load dump (g :: gs) doc e trg hrun with
              ⟨hnil, _⟩ | ⟨t', x', htr', hok', hfail', _⟩
            · rw [hnil] at htr
              exact absurd htr.symm (List.append_ne_nil_of_right_ne_nil t (by simp))
            · rw [htr'] at htr
              obtain ⟨ht, hx⟩ := List.append_inj' htr rfl
              have hx2 : x' = x := by simpa using hx
              subst hx2
              subst ht
              exact ⟨hok', fun hfl => hfail' hfl⟩
        · obtain ⟨h1, h2⟩ := Prod.mk.injEq .. ▸ hP
          rw [← h2] at htr
          exact absurd htr.symm (List.append_ne_nil_of_right_ne_nil t (by simp))

/-! ## Claim theorems -/

/-- C2: For every normalized issue list, the batches produced by the
Partitioner, concatenated in output order, contain each input issue exactly
once (grouped by region: every batch is homogeneous for its region key, and
the concatenation is a permutation of the input), and every batch has size at
most `CHUNK_SIZE` (5). -/
theorem partitioner_exact_cover (issues : List FIssue) :
    List.Perm ((partitionIssues issues).flatMap Prod.snd) issues ∧
    (∀ p ∈ partitionIssues issues, p.2.length ≤ chunkSize) ∧
    (∀ p ∈ partitionIssues issues, ∀ i ∈ p.2, chunkKey i = p.1) :=
  ⟨partitionIssues_perm issues, partitionIssues_batch_le issues, partitionIssues_keys issues⟩

/-- Witness for C2 at a concrete list: 7 issues on one endpoint region and one
on `info`, giving batches of sizes 5, 2, 1. -/
theorem partitioner_exact_cover_witness :
    List.Perm
      ((partitionIssues
        [⟨"a","m","paths./o.a"⟩, ⟨"b","m","paths./o.b"⟩, ⟨"c","m","paths./o.c"⟩,
         ⟨"d","m","paths./o.d"⟩, ⟨"e","m","paths./o.e"⟩, ⟨"f","m","paths./o.f"⟩,
         ⟨"g","m","paths./o.g"⟩, ⟨"h","m","info.contact"⟩]).flatMap Prod.snd)
      [⟨"a","m","paths./o.a"⟩, ⟨"b","m","paths./o.b"⟩, ⟨"c","m","paths./o.c"⟩,
       ⟨"d","m","paths./o.d"⟩, ⟨"e","m","paths./o.e"⟩, ⟨"f","m","paths./o.f"⟩,
       ⟨"g","m","paths./o.g"⟩, ⟨"h","m","info.contact"⟩] ∧
    (("paths./o", [⟨"f","m","paths./o.f"⟩, ⟨"g","m","paths./o.g"⟩]) :
        String × List FIssue).2.length ≤ chunkSize ∧
    chunkKey ⟨"g","m","paths./o.g"⟩ = "paths./o" := by
  have h := partitioner_exact_cover
    [⟨"a","m","paths./o.a"⟩, ⟨"b","m","paths./o.b"⟩, ⟨"c","m","paths./o.c"⟩,
     ⟨"d","m","paths./o.d"⟩, ⟨"e","m","paths./o.e"⟩, ⟨"f","m","paths./o.f"⟩,
     ⟨"g","m","paths./o.g"⟩, ⟨"h","m","info.contact"⟩]
  refine ⟨h.1, h.2.1 ("paths./o", [⟨"f","m","paths./o.f"⟩, ⟨"g","m","paths./o.g"⟩]) (by decide),
    h.2.2 ("paths./o", [⟨"f","m","paths./o.f"⟩, ⟨"g","m","paths./o.g"⟩]) (by decide)
      ⟨"g","m","paths./o.g"⟩ (by decide)⟩

/-- C4: extracting a region that resolves and merging the extracted
sub-document back with no modification yields the original document. -/
theorem extract_merge_roundtrip (doc : List (String × Yaml)) (key : String)
    (sub : List (String × Yaml)) (hx : extractRegion doc key = some sub) :
    mergeRegion doc key sub = some doc := by
  rcases hkp : keyParts key with _ | ⟨p0, _ | ⟨p1, ps⟩⟩
  · simp [extractRegion, hkp] at hx
  · simp only [extractRegion, hkp] at hx
    rcases hl : lookupY doc p0 with _ | v
    · rw [hl] at hx
      simp at hx
    · rw [hl] at hx
      simp only [Option.some.injEq] at hx
      subst hx
      simp only [mergeRegion, hkp]
      have : objAssign doc [(p0, v)] = setProp doc p0 v := rfl
      rw [this, setProp_lookup_eq doc p0 v hl]
  · simp only [extractRegion, hkp] at hx
    rcases hp : lookupY doc "paths" with _ | pv
    · rw [hp] at hx
      simp at hx
    · rw [hp] at hx
      cases pv with
      | scalar s => simp at hx
      | seq l => simp at hx
      | map pm =>
        have hx2 : (match lookupY pm p1 with
            | some v => some [(p1, v)]
            | none => (none : Option (List (String × Yaml)))) = some sub := hx
        rcases he : lookupY pm p1 with _ | v
        · rw [he] at hx2
          simp at hx2
        · rw [he] at hx2
          simp only [Option.some.injEq] at hx2
          subst hx2
          simp only [mergeRegion, hkp, hp]
          have h1 : objAssign pm [(p1, v)] = setProp pm p1 v := rfl
          rw [h1, setProp_lookup_eq pm p1 v he, setProp_lookup_eq doc "paths" (Yaml.map pm) hp]

/-- Witness for C4 at a concrete document and the endpoint region
`paths./u`. -/
theorem extract_merge_roundtrip_witness :
    mergeRegion [("info", Yaml.scalar "i"),
        ("paths", Yaml.map [("/u", Yaml.scalar "x"), ("/v", Yaml.scalar "y")])]
      "paths./u" [("/u", Yaml.scalar "x")] =
      some [("info", Yaml.scalar "i"),
        ("paths", Yaml.map [("/u", Yaml.scalar "x"), ("/v", Yaml.scalar "y")])] :=
  extract_merge_roundtrip
    [("info", Yaml.scalar "i"),
      ("paths", Yaml.map [("/u", Yaml.scalar "x"), ("/v", Yaml.scalar "y")])]
    "paths./u" [("/u", Yaml.scalar "x")] rfl

/-- C9: merging the same fixed sub-document into the live document twice
yields the same document as merging it once.  (`yaml.load` output never has
duplicate keys, hence the `Nodup` hypothesis on the fixed sub-document's
keys.) -/
theorem merge_idempotent (doc d1 : List (String × Yaml)) (key : String)
    (fixed : List (String × Yaml)) (hnd : (keysOf fixed).Nodup)
    (h1 : mergeRegion doc key fixed = some d1) :
    mergeRegion d1 key fixed = some d1 := by
  rcases hkp : keyParts key with _ | ⟨p0, _ | ⟨p1, ps⟩⟩
  · simp only [mergeRegion, hkp] at h1 ⊢
    simp only [Option.some.injEq] at h1
    subst h1
    rw [objAssign_idem doc fixed hnd]
  · simp only [mergeRegion, hkp] at h1 ⊢
    simp only [Option.some.injEq] at h1
    subst h1
    rw [objAssign_idem doc fixed hnd]
  · simp only [mergeRegion, hkp] at h1 ⊢
    rcases hp : lookupY doc "paths" with _ | pv
    · rw [hp] at h1
      simp at h1
    · rw [hp] at h1
      cases pv with
      | scalar s => simp at h1
      | seq l => simp at h1
      | map pm =>
        simp only [Option.some.injEq] at h1
        subst h1
        rw [lookupY_setProp_self doc "paths" (Yaml.map (objAssign pm fixed))]
        show some (setProp (setProp doc "paths" (Yaml.map (objAssign pm fixed))) "paths"
            (Yaml.map (objAssign (objAssign pm fixed) fixed))) = _
        rw [objAssign_idem pm fixed hnd]
        rw [setProp_lookup_eq _ "paths" _ (lookupY_setProp_self doc "paths" _)]

/-- Witness for C9: merging `{/u: z}` into a concrete document twice equals
merging once. -/
theorem merge_idempotent_witness :
    mergeRegion
      (setProp [("paths", Yaml.map [("/u", Yaml.scalar "x")])] "paths"
        (Yaml.map (objAssign [("/u", Yaml.scalar "x")] [("/u", Yaml.scalar "z")])))
      "paths./u" [("/u", Yaml.scalar "z")] =
      some (setProp [("paths", Yaml.map [("/u", Yaml.scalar "x")])] "paths"
        (Yaml.map (objAssign [("/u", Yaml.scalar "x")] [("/u", Yaml.scalar "z")]))) :=
  merge_idempotent [("paths", Yaml.map [("/u", Yaml.scalar "x")])] _ "paths./u"
    [("/u", Yaml.scalar "z")] (by decide) rfl

theorem lookupY_mem_keys (m : List (String × Yaml)) (k : String) (v : Yaml)
    (h : lookupY m k = some v) : k ∈ keysOf m := by
  induction m with
  | nil => simp [lookupY] at h
  | cons p rest ih =>
    obtain ⟨k₀, v₀⟩ := p
    by_cases h₀ : k₀ = k
    · subst h₀
      simp [keysOf]
    · simp only [lookupY, if_neg h₀] at h
      rw [keysOf_cons]
      exact List.mem_cons_of_mem _ (ih h)

/-- C5: `Merge` overwrites exactly the fields present in the fixed
sub-document at the key's location; everything else — sibling entries of a
path-collection entry and all other top-level keys — is unchanged, and the
key set gains exactly the fixed sub-document's new keys (none dropped).
The `Nodup` hypothesis holds for every `yaml.load` output. -/
theorem merge_frame (doc : List (String × Yaml)) (key : String)
    (fixed : List (String × Yaml)) (hnd : (keysOf fixed).Nodup) :
    (∀ p0 p1 ps pm, keyParts key = p0 :: p1 :: ps →
      lookupY doc "paths" = some (Yaml.map pm) →
      mergeRegion doc key fixed =
        some (setProp doc "paths" (Yaml.map (objAssign pm fixed))) ∧
      (∀ k, k ≠ "paths" →
        lookupY (setProp doc "paths" (Yaml.map (objAssign pm fixed))) k = lookupY doc k) ∧
      (∀ k v, (k, v) ∈ fixed → lookupY (objAssign pm fixed) k = some v) ∧
      (∀ k, k ∉ keysOf fixed → lookupY (objAssign pm fixed) k = lookupY pm k) ∧
      keysOf (objAssign pm fixed) =
        keysOf pm ++ (keysOf fixed).filter (fun k => k ∉ keysOf pm) ∧
      keysOf (setProp doc "paths" (Yaml.map (objAssign pm fixed))) = keysOf doc) ∧
    (∀ p0, keyParts key = [p0] →
      mergeRegion doc key fixed = some (objAssign doc fixed) ∧
      (∀ k v, (k, v) ∈ fixed → lookupY (objAssign doc fixed) k = some v) ∧
      (∀ k, k ∉ keysOf fixed → lookupY (objAssign doc fixed) k = lookupY doc k) ∧
      keysOf (objAssign doc fixed) =
        keysOf doc ++ (keysOf fixed).filter (fun k => k ∉ keysOf doc)) := by
  constructor
  · intro p0 p1 ps pm hkp hp
    refine ⟨by simp [mergeRegion, hkp, hp], ?_, ?_, ?_, ?_, ?_⟩
    · intro k hk
      exact lookupY_setProp_ne doc "paths" k _ hk
    · intro k v hkv
      exact lookupY_objAssign_mem pm fixed k v hnd hkv
    · intro k hk
      exact lookupY_objAssign_not_mem pm fixed k hk
    · exact keysOf_objAssign pm fixed hnd
    · rw [keysOf_setProp, if_pos (lookupY_mem_keys doc "paths" _ hp)]
  · intro p0 hkp
    refine ⟨by simp [mergeRegion, hkp], ?_, ?_, ?_⟩
    · intro k v hkv
      exact lookupY_objAssign_mem doc fixed k v hnd hkv
    · intro k hk
      exact lookupY_objAssign_not_mem doc fixed k hk
    · exact keysOf_objAssign doc fixed hnd

/-- Witness for C5: the path-collection branch at a concrete document — the
fixed entry `/u` is overwritten, the sibling `/v` and the top-level `info`
are untouched, and the key sets are preserved. -/
theorem merge_frame_witness :
    mergeRegion [("info", Yaml.scalar "i"),
        ("paths", Yaml.map [("/u", Yaml.scalar "x"), ("/v", Yaml.scalar "y")])]
      "paths./u" [("/u", Yaml.scalar "z")] =
      some (setProp [("info", Yaml.scalar "i"),
          ("paths", Yaml.map [("/u", Yaml.scalar "x"), ("/v", Yaml.scalar "y")])]
        "paths"
        (Yaml.map (objAssign [("/u", Yaml.scalar "x"), ("/v", Yaml.scalar "y")]
          [("/u", Yaml.scalar "z")]))) ∧
    lookupY (setProp [("info", Yaml.scalar "i"),
        ("paths", Yaml.map [("/u", Yaml.scalar "x"), ("/v", Yaml.scalar "y")])]
      "paths"
      (Yaml.map (objAssign [("/u", Yaml.scalar "x"), ("/v", Yaml.scalar "y")]
        [("/u", Yaml.scalar "z")]))) "info" =
      lookupY [("info", Yaml.scalar "i"),
        ("paths", Yaml.map [("/u", Yaml.scalar "x"), ("/v", Yaml.scalar "y")])] "info" ∧
    lookupY (objAssign [("/u", Yaml.scalar "x"), ("/v", Yaml.scalar "y")]
      [("/u", Yaml.scalar "z")]) "/u" = some (Yaml.scalar "z") ∧
    lookupY (objAssign [("/u", Yaml.scalar "x"), ("/v", Yaml.scalar "y")]
      [("/u", Yaml.scalar "z")]) "/v" =
      lookupY [("/u", Yaml.scalar "x"), ("/v", Yaml.scalar "y")] "/v" ∧
    keysOf (objAssign [("/u", Yaml.scalar "x"), ("/v", Yaml.scalar "y")]
      [("/u", Yaml.scalar "z")]) =
      keysOf [("/u", Yaml.scalar "x"), ("/v", Yaml.scalar "y")] ++
        (keysOf [("/u", Yaml.scalar "z")]).filter
          (fun k => k ∉ keysOf [("/u", Yaml.scalar "x"), ("/v", Yaml.scalar "y")]) := by
  have h := (merge_frame [("info", Yaml.scalar "i"),
      ("paths", Yaml.map [("/u", Yaml.scalar "x"), ("/v", Yaml.scalar "y")])]
    "paths./u" [("/u", Yaml.scalar "z")] (by decide)).1 "paths" "/u" []
    [("/u", Yaml.scalar "x"), ("/v", Yaml.scalar "y")] (by decide) rfl
  exact ⟨h.1, h.2.1 "info" (by decide), h.2.2.1 "/u" (Yaml.scalar "z") (by simp),
    h.2.2.2.1 "/v" (by decide), h.2.2.2.2.1⟩

/-- The issue list carried by a `DetailedResult`. -/
def detailedIssuesOf : DetailedResult → List DetailedIssue
  | DetailedResult.report _ issues => issues
  | DetailedResult.malformed _ => []

/-- C6: the detailed Normalizer maps the numeric severity code through the
fixed table `{0 → error, 1 → warn, 2 → info, 3 → hint}`, anything else to
`unknown`; every normalized issue's severity label is produced by that table,
and every issue the Normalizer emits is the normalization of some raw
input issue. -/
theorem normalizer_severity_table :
    severityLabel 0 = "error" ∧ severityLabel 1 = "warn" ∧ severityLabel 2 = "info" ∧
    severityLabel 3 = "hint" ∧
    (∀ s : Int, s ≠ 0 → s ≠ 1 → s ≠ 2 → s ≠ 3 → severityLabel s = "unknown") ∧
    (∀ item : RawIssue, (normalizeItem item).severity = severityLabel item.severity) ∧
    (∀ results : List RawIssue, ∀ out ∈ detailedIssuesOf (formatDetailed (some results)),
      ∃ item ∈ results, out = normalizeItem item) := by
  refine ⟨rfl, rfl, rfl, rfl, ?_, fun _ => rfl, ?_⟩
  · intro s h0 h1 h2 h3
    have b0 : (s == (0 : Int)) = false := beq_eq_false_iff_ne.mpr h0
    have b1 : (s == (1 : Int)) = false := beq_eq_false_iff_ne.mpr h1
    have b2 : (s == (2 : Int)) = false := beq_eq_false_iff_ne.mpr h2
    have b3 : (s == (3 : Int)) = false := beq_eq_false_iff_ne.mpr h3
    simp [severityLabel, severityTable, List.lookup, b0, b1, b2, b3]
  · intro results out hout
    simp only [formatDetailed, detailedIssuesOf] at hout
    rw [formatDetailed_foldl_issues results (0, 0, [])] at hout
    have hperm := sortByLine_perm (([] : List DetailedIssue) ++ results.map normalizeItem)
    have hmem := hperm.mem_iff.mp hout
    simp only [List.nil_append, List.mem_map] at hmem
    obtain ⟨item, hitem, heq⟩ := hmem
    exact ⟨item, hitem, heq.symm⟩

/-- Witness for C6: the table at each defined code, an out-of-table code, and
a concrete normalizer run. -/
theorem normalizer_severity_table_witness :
    severityLabel 0 = "error" ∧ severityLabel 1 = "warn" ∧ severityLabel 2 = "info" ∧
    severityLabel 3 = "hint" ∧ severityLabel 9 = "unknown" ∧
    (normalizeItem ⟨"r", "m", ["info"], 9, 4, 2⟩).severity = severityLabel 9 ∧
    (∃ item ∈ [(⟨"r", "m", ["info"], 9, 4, 2⟩ : RawIssue)],
      (⟨"unknown", "r", "m", "info", 5, 3⟩ : DetailedIssue) = normalizeItem item) := by
  have h := normalizer_severity_table
  refine ⟨h.1, h.2.1, h.2.2.1, h.2.2.2.1,
    h.2.2.2.2.1 9 (by decide) (by decide) (by decide) (by decide),
    h.2.2.2.2.2.1 ⟨"r", "m", ["info"], 9, 4, 2⟩, ?_⟩
  exact h.2.2.2.2.2.2 [⟨"r", "m", ["info"], 9, 4, 2⟩]
    ⟨"unknown", "r", "m", "info", 5, 3⟩ (by decide)

theorem addToGroup_mem_self (acc : List (String × List FIssue)) (k : String) (i : FIssue) :
    ∃ g, (k, g) ∈ addToGroup acc k i ∧ i ∈ g := by
  induction acc with
  | nil => exact ⟨[i], by simp [addToGroup], by simp⟩
  | cons p rest ih =>
    obtain ⟨k', g'⟩ := p
    by_cases h : k' = k
    · subst h
      exact ⟨g' ++ [i], by simp [addToGroup], by simp⟩
    · obtain ⟨g, hg, hi⟩ := ih
      exact ⟨g, by simp [addToGroup, h, hg], hi⟩

theorem addToGroup_mem_mono (acc : List (String × List FIssue)) (k : String) (i : FIssue)
    (k0 : String) (g0 : List FIssue) (j : FIssue)
    (h : (k0, g0) ∈ acc) (hj : j ∈ g0) :
    ∃ g1, (k0, g1) ∈ addToGroup acc k i ∧ j ∈ g1 := by
  induction acc with
  | nil => simp at h
  | cons p rest ih =>
    obtain ⟨k', g'⟩ := p
    rcases List.mem_cons.mp h with h₀ | h₀
    · injection h₀ with hk hg
      subst hk; subst hg
      by_cases hkk : k0 = k
      · subst hkk
        exact ⟨g0 ++ [i], by simp [addToGroup], List.mem_append_left _ hj⟩
      · exact ⟨g0, by simp [addToGroup, hkk], hj⟩
    · by_cases hkk : k' = k
      · exact ⟨g0, by simp [addToGroup, hkk, h₀], hj⟩
      · obtain ⟨g1, hg1, hj1⟩ := ih h₀
        exact ⟨g1, by simp [addToGroup, hkk, hg1], hj1⟩

theorem foldl_group_mem_mono (is : List FIssue) :
    ∀ (acc : List (String × List FIssue)) (k0 : String) (g0 : List FIssue) (j : FIssue),
    (k0, g0) ∈ acc → j ∈ g0 →
    ∃ g1, (k0, g1) ∈ is.foldl (fun a i => addToGroup a (chunkKey i) i) acc ∧ j ∈ g1 := by
  induction is with
  | nil => intro acc k0 g0 j h hj; exact ⟨g0, h, hj⟩
  | cons i tl ih =>
    intro acc k0 g0 j h hj
    simp only [List.foldl_cons]
    obtain ⟨g1, hg1, hj1⟩ := addToGroup_mem_mono acc (chunkKey i) i k0 g0 j h hj
    exact ih _ k0 g1 j hg1 hj1

theorem groupIssues_mem_of_mem (issues : List FIssue) (i : FIssue) (hi : i ∈ issues) :
    ∃ g, (chunkKey i, g) ∈ groupIssues issues ∧ i ∈ g := by
  have main : ∀ (is : List FIssue) (acc : List (String × List FIssue)) (i : FIssue),
      i ∈ is →
      ∃ g, (chunkKey i, g) ∈ is.foldl (fun a j => addToGroup a (chunkKey j) j) acc ∧ i ∈ g := by
    intro is
    induction is with
    | nil => intro acc i hi; simp at hi
    | cons hd tl ih =>
      intro acc i hi
      simp only [List.foldl_cons]
      rcases List.mem_cons.mp hi with h₀ | h₀
      · subst h₀
        obtain ⟨g, hg, hig⟩ := addToGroup_mem_self acc (chunkKey i) i
        exact foldl_group_mem_mono tl _ (chunkKey i) g i hg hig
      · exact ih _ i h₀
  exact main issues [] i hi

/-- C8 (counterexample): the code assigns an issue with an empty location path
to the empty-string region key, not to a key called `root`. -/
theorem empty_path_key_counterexample :
    chunkKey ⟨"t", "d", ""⟩ = "" ∧
    chunkKey ⟨"t", "d", ""⟩ ≠ "root" ∧
    groupIssues [⟨"t", "d", ""⟩] = [("", [⟨"t", "d", ""⟩])] := by
  decide

/-- C8 (amended): the region key is a pure function of the dot-joined
location path — the first segment, or first + "." + second under the `paths`
collection; an issue whose path is empty gets the empty-string region key
(`"".split('.')` is `[""]`), and every issue, the empty-path ones included,
lands in the group of its key rather than being dropped. -/
theorem region_key_assignment (issues : List FIssue) :
    (∀ i : FIssue, ∀ p0 p1 ps, splitDot i.element = p0 :: p1 :: ps →
      chunkKey i = if p0 = "paths" then p0 ++ "." ++ p1 else p0) ∧
    (∀ i : FIssue, ∀ p0, splitDot i.element = [p0] → chunkKey i = p0) ∧
    (∀ i : FIssue, i.element = "" → chunkKey i = "") ∧
    (∀ i ∈ issues, ∃ g, (chunkKey i, g) ∈ groupIssues issues ∧ i ∈ g) := by
  refine ⟨?_, ?_, ?_, fun i hi => groupIssues_mem_of_mem issues i hi⟩
  · intro i p0 p1 ps hsp
    simp [chunkKey, hsp]
  · intro i p0 hsp
    simp [chunkKey, hsp]
  · intro i he
    have hsp : splitDot i.element = [""] := by rw [he]; rfl
    simp [chunkKey, hsp]

/-- Witness for C8 (amended) at concrete issues, one with an empty path. -/
theorem region_key_assignment_witness :
    chunkKey ⟨"a", "m", "paths./u.get"⟩ = "paths./u" ∧
    chunkKey ⟨"b", "m", "info"⟩ = "info" ∧
    chunkKey ⟨"c", "m", ""⟩ = "" ∧
    (∃ g, (chunkKey ⟨"c", "m", ""⟩, g) ∈
        groupIssues [⟨"a", "m", "paths./u.get"⟩, ⟨"c", "m", ""⟩] ∧ ⟨"c", "m", ""⟩ ∈ g) := by
  have h := region_key_assignment [⟨"a", "m", "paths./u.get"⟩, ⟨"c", "m", ""⟩]
  refine ⟨?_, ?_, h.2.2.1 ⟨"c", "m", ""⟩ rfl, h.2.2.2 ⟨"c", "m", ""⟩ (by decide)⟩
  · exact (h.1 ⟨"a", "m", "paths./u.get"⟩ "paths" "/u" ["get"] (by decide)).trans (by decide)
  · exact h.2.1 ⟨"b", "m", "info"⟩ "info" (by decide)

/-- C3: when the formatted issue list is empty, the handler answers the
distinguished no-issues response immediately: the `fixed-yaml-file` field is
the fixed marker text, no rewrite-adapter call is made (empty call trace), and
the response does not depend on — and in particular never transforms — the
uploaded document text. -/
theorem repair_no_issues_short_circuit (hasKey : Bool)
    (adapter : String → List FIssue → String) (load : String → Option Yaml)
    (dump : Yaml → String) (parseJson : String → Option (List RawIssue))
    (stdout : String) (originalYamlContent : String)
    (he : (formatSpectralOutput (parseJson (if stdout = "" then "[]" else stdout))).errors = [])
    (hw : (formatSpectralOutput (parseJson (if stdout = "" then "[]" else stdout))).warnings = []) :
    handleValidate hasKey adapter load dump parseJson stdout originalYamlContent =
      ((formatSpectralOutput (parseJson (if stdout = "" then "[]" else stdout)),
        noIssuesMessage), []) ∧
    (∀ originalYamlContent',
      handleValidate hasKey adapter load dump parseJson stdout originalYamlContent' =
        handleValidate hasKey adapter load dump parseJson stdout originalYamlContent) := by
  constructor
  · simp [handleValidate, he, hw]
  · intro y'
    simp [handleValidate, he, hw]

/-- Witness for C3: a concrete run whose lint output parses to an empty issue
list answers the no-issues response with an empty adapter-call trace. -/
theorem repair_no_issues_short_circuit_witness :
    handleValidate true (fun _ _ => "r") (fun _ => none) (fun _ => "")
      (fun s => if s = "[]" then some [] else none) "" "doc" =
      ((formatSpectralOutput (some []), noIssuesMessage), []) ∧
    (∀ y', handleValidate true (fun _ _ => "r") (fun _ => none) (fun _ => "")
        (fun s => if s = "[]" then some [] else none) "" y' =
      handleValidate true (fun _ _ => "r") (fun _ => none) (fun _ => "")
        (fun s => if s = "[]" then some [] else none) "" "doc") :=
  repair_no_issues_short_circuit true (fun _ _ => "r") (fun _ => none) (fun _ => "")
    (fun s => if s = "[]" then some [] else none) "" "doc" (by decide) (by decide)

/-- C7 (counterexample): in the chunked-fix pipeline, lint output that fails to
parse produces exactly the same handler response as genuinely empty lint
output — the document is reported as valid with the no-issues marker, so the
malformed case is not distinguishable from "zero issues found". -/
theorem malformed_output_counterexample :
    handleValidate true (fun _ _ => "r") (fun _ => none) (fun _ => "")
        (fun s => if s = "[]" then some [] else none) "not json" "doc" =
      handleValidate true (fun _ _ => "r") (fun _ => none) (fun _ => "")
        (fun s => if s = "[]" then some [] else none) "[]" "doc" ∧
    (fun s => if s = "[]" then some ([] : List RawIssue) else none) "not json" = none ∧
    handleValidate true (fun _ _ => "r") (fun _ => none) (fun _ => "")
        (fun s => if s = "[]" then some [] else none) "not json" "doc" =
      ((⟨[], []⟩, noIssuesMessage), []) := by
  decide

/-- C7 (amended): only the detailed normalizer of part_000 signals unparsable
lint output distinctly — its catch branch produces an error-status result with
no issues, and its endpoint answers the 500 error response, distinguishable
from every valid response; the chunked-fix pipeline (src/index.js, part_005)
instead folds a parse failure into the empty issue structure and reports the
document as valid with the no-issues marker. -/
theorem malformed_issue_list_handling (parseJson : String → Option (List RawIssue))
    (stdout : String) :
    (trimStr stdout ≠ "" → trimStr stdout ≠ "[]" → stdout ≠ "" →
      parseJson (trimStr stdout) = none →
      handleDetailed parseJson stdout =
        DetailedHttp.serverError "Failed to parse Spectral output." ∧
      detailedIssuesOf (formatDetailed (parseJson (trimStr stdout))) = [] ∧
      handleDetailed parseJson stdout ≠ DetailedHttp.okValid ∧
      (∀ summary issues, handleDetailed parseJson stdout ≠ DetailedHttp.okReport summary issues)) ∧
    (∀ (hasKey : Bool) (adapter : String → List FIssue → String)
        (load : String → Option Yaml) (dump : Yaml → String) (yaml : String),
      parseJson (if stdout = "" then "[]" else stdout) = none →
      handleValidate hasKey adapter load dump parseJson stdout yaml =
        ((⟨[], []⟩, noIssuesMessage), [])) := by
  constructor
  · intro h1 h2 h3 hparse
    have hbranch : handleDetailed parseJson stdout =
        DetailedHttp.serverError "Failed to parse Spectral output." := by
      simp only [handleDetailed, if_neg h3, hparse]
      rw [if_neg (by simp [h1, h2])]
      rfl
    refine ⟨hbranch, by rw [hparse]; rfl, by rw [hbranch]; simp, ?_⟩
    intro summary issues
    rw [hbranch]
    simp
  · intro hasKey adapter load dump yaml hparse
    simp [handleValidate, hparse, formatSpectralOutput]

/-- Witness for C7 (amended): a concrete unparsable lint output, answered with
the 500 error by the part_000 handler and with the valid/no-issues response by
the chunked-fix handler. -/
theorem malformed_issue_list_handling_witness :
    (handleDetailed (fun s => if s = "[]" then some [] else none) "not json" =
        DetailedHttp.serverError "Failed to parse Spectral output." ∧
      detailedIssuesOf (formatDetailed ((fun s => if s = "[]" then some ([] : List RawIssue) else none)
        (trimStr "not json"))) = [] ∧
      handleDetailed (fun s => if s = "[]" then some [] else none) "not json" ≠
        DetailedHttp.okValid ∧
      (∀ summary issues, handleDetailed (fun s => if s = "[]" then some [] else none) "not json" ≠
        DetailedHttp.okReport summary issues)) ∧
    handleValidate true (fun _ _ => "r") (fun _ => none) (fun _ => "")
        (fun s => if s = "[]" then some [] else none) "not json" "doc" =
      ((⟨[], []⟩, noIssuesMessage), []) := by
  have h := malformed_issue_list_handling
    (fun s => if s = "[]" then some [] else none) "not json"
  exact ⟨h.1 (by decide) (by decide) (by decide) (by decide),
    h.2 true (fun _ _ => "r") (fun _ => none) (fun _ => "") "doc" (by decide)⟩

/-- Adapter oracle for the C1 counterexample: fails (with the source's HTTP
failure sentinel) exactly on the `info` and `beta` single-issue chunks,
answers `"OK"` otherwise. -/
def adC1 : String → List FIssue → String := fun _ c =>
  if c = [⟨"t", "d", "info"⟩] ∨ c = [⟨"t", "d", "beta"⟩] then
    "AI fix failed: API returned status 500. Details: x"
  else "OK"

/-- `yaml.load` oracle for the C1 counterexample. -/
def loadC1 : String → Option Yaml := fun s =>
  if s = "D1" then
    some (Yaml.map [("alpha", Yaml.scalar "a"), ("beta", Yaml.scalar "b"),
      ("info", Yaml.scalar "c")])
  else if s = "OK" then some (Yaml.map [("alpha", Yaml.scalar "fixed")])
  else none

/-- `yaml.dump` oracle for the C1 counterexample. -/
def dumpC1 : Yaml → String := fun _ => "S"

/-- C1 (counterexample): two runs over the same document, one failing on the
first batch of its only region (`info`), the other on the first batch of its
second region (`beta`) after a successful first region, return the very same
`Failed` string — the adapter's message verbatim.  The result therefore cannot
carry which region/batch the failure occurred on (that is only written to the
server log). -/
theorem orchestrator_failure_counterexample :
    (getAiFixesT true adC1 loadC1 dumpC1 "D1" ⟨[], [⟨"t", "d", "info"⟩]⟩).1 =
      (getAiFixesT true adC1 loadC1 dumpC1 "D1"
        ⟨[], [⟨"t", "d", "alpha"⟩, ⟨"t", "d", "beta"⟩]⟩).1 ∧
    (getAiFixesT true adC1 loadC1 dumpC1 "D1" ⟨[], [⟨"t", "d", "info"⟩]⟩).1 =
      "AI fix failed: API returned status 500. Details: x" ∧
    (getAiFixesT true adC1 loadC1 dumpC1 "D1" ⟨[], [⟨"t", "d", "info"⟩]⟩).2 =
      [("S", [⟨"t", "d", "info"⟩])] ∧
    (getAiFixesT true adC1 loadC1 dumpC1 "D1"
        ⟨[], [⟨"t", "d", "alpha"⟩, ⟨"t", "d", "beta"⟩]⟩).2 =
      [("S", [⟨"t", "d", "alpha"⟩]), ("S", [⟨"t", "d", "beta"⟩])] := by
  decide

/-- Witness for C1 (amended, `getAiFixesT_abort`) at the one-batch failing
run: the trace decomposes as `[] ++ [the failing call]`, every earlier call is
non-failing, and the returned string is the adapter's failure message
verbatim. -/
theorem orchestrator_abort_witness :
    (∀ c ∈ ([] : List (String × List FIssue)), aiFailed (adC1 c.1 c.2) = false) ∧
    (aiFailed (adC1 "S" [⟨"t", "d", "info"⟩]) = true →
      (getAiFixesT true adC1 loadC1 dumpC1 "D1" ⟨[], [⟨"t", "d", "info"⟩]⟩).1 =
        adC1 "S" [⟨"t", "d", "info"⟩]) :=
  getAiFixesT_abort true adC1 loadC1 dumpC1 "D1" ⟨[], [⟨"t", "d", "info"⟩]⟩
    [] ("S", [⟨"t", "d", "info"⟩]) (by decide)

/-- Rewrite oracle for C10 whose every response is a successful HTTP call with
message content (`AiResponse.text`); the content happens to begin with the
failure sentinel. -/
def adC10text : String → List FIssue → String := fun _ _ =>
  callAiWithChunk (AiResponse.text "AI fix failed: An exception occurred.")

/-- Rewrite oracle for C10 whose every call throws a network exception. -/
def adC10net : String → List FIssue → String := fun _ _ =>
  callAiWithChunk AiResponse.netException

/-- `yaml.load` oracle for C10. -/
def loadC10 : String → Option Yaml := fun s =>
  if s = "D" then
    some (Yaml.map [("alpha", Yaml.scalar "a"), ("beta", Yaml.scalar "b")])
  else none

/-- C10: the orchestrator classifies a batch as failed solely by the returned
string's `"AI fix failed:"` prefix.  A run whose every external call succeeds
(`AiResponse.text` responses throughout) but whose extracted corrected content
begins with that prefix is classified as failed: it aborts after the first of
its two planned regions and returns the content as the failure string — and it
is indistinguishable from the run in which every call genuinely throws a
network exception. -/
theorem success_with_failure_prefix_misclassified :
    callAiWithChunk (AiResponse.text "AI fix failed: An exception occurred.") =
      "AI fix failed: An exception occurred." ∧
    aiFailed (callAiWithChunk (AiResponse.text "AI fix failed: An exception occurred.")) = true ∧
    (getAiFixesT true adC10text loadC10 (fun _ => "S") "D"
        ⟨[], [⟨"t", "d", "alpha"⟩, ⟨"t", "d", "beta"⟩]⟩).1 =
      "AI fix failed: An exception occurred." ∧
    (getAiFixesT true adC10text loadC10 (fun _ => "S") "D"
        ⟨[], [⟨"t", "d", "alpha"⟩, ⟨"t", "d", "beta"⟩]⟩).2.length = 1 ∧
    (groupIssues ((⟨[], [⟨"t", "d", "alpha"⟩, ⟨"t", "d", "beta"⟩]⟩ : Spectral).errors ++
      (⟨[], [⟨"t", "d", "alpha"⟩, ⟨"t", "d", "beta"⟩]⟩ : Spectral).warnings)).length = 2 ∧
    getAiFixesT true adC10text loadC10 (fun _ => "S") "D"
        ⟨[], [⟨"t", "d", "alpha"⟩, ⟨"t", "d", "beta"⟩]⟩ =
      getAiFixesT true adC10net loadC10 (fun _ => "S") "D"
        ⟨[], [⟨"t", "d", "alpha"⟩, ⟨"t", "d", "beta"⟩]⟩ := by
  decide
